import Mathlib

/-!
Formal model of the maven-pom-downloader dependency walker and artifact
fetcher (src/main.js, first script variant, whose line numbers the claims
cite).  JavaScript strings are modelled as lists of characters; JavaScript
`null`/`undefined` results are modelled with `Option`; the xml2js document
shape (every present element is an array of parsed child contents) is
modelled with `Option (List _)` fields.
-/

abbrev Str := List Char

def strOf (s : String) : Str := s.toList

/-- JS `String.prototype.split` with a one-character separator: always
returns at least one (possibly empty) piece. -/
def splitOnChar (c : Char) : Str → List Str
  | [] => [[]]
  | a :: rest =>
    let r := splitOnChar c rest
    if a = c then [] :: r
    else
      match r with
      | h :: t => (a :: h) :: t
      | [] => [[a]]

/-- The whitespace characters removed by JS `String.prototype.trim`
(ASCII part; the source never feeds exotic Unicode whitespace). -/
def isJsSpace (c : Char) : Bool :=
  c == ' ' || c == '\t' || c == '\n' || c == '\r' || c == '\x0b' || c == '\x0c'

/-- JS `trim`: drop whitespace from both ends. -/
def jsTrim (s : Str) : Str :=
  ((s.dropWhile isJsSpace).reverse.dropWhile isJsSpace).reverse

/-- Result object of `parseVersionRange` (src/main.js lines 407-426).
JS `undefined` fields are `none`. -/
structure VersionRange where
  min : Option Str
  includeMin : Bool
  max : Option Str
  includeMax : Bool
  exact : Option Str
deriving DecidableEq

/-- `parseVersionRange(versionRange)` (src/main.js lines 407-426): trim,
then a string starting with `[` and ending with `)` yields
`{min: slice(1,-2), includeMin: true, max: null, includeMax: false}`;
anything else yields `{exact: <trimmed string>}`. -/
def parseVersionRange (versionRange : Str) : VersionRange :=
  let v := jsTrim versionRange
  match v with
  | '[' :: rest =>
    if rest.getLast? = some ')' then
      { min := some rest.dropLast.dropLast, includeMin := true,
        max := none, includeMax := false, exact := none }
    else
      { min := none, includeMin := false, max := none, includeMax := false,
        exact := some v }
  | _ =>
      { min := none, includeMin := false, max := none, includeMax := false,
        exact := some v }

/-- An xml2js-parsed JavaScript value: a string leaf or an object whose
values are arrays of parsed children (the shape xml2js produces and the
only shape `resolveVersion` traverses). -/
inductive JsVal where
  | vstr : Str → JsVal
  | vobj : List (Str × List JsVal) → JsVal

abbrev JsObj := List (Str × List JsVal)

/-- JS truthiness of the values `resolveVersion` tests: a string is truthy
iff non-empty; an object (or array, always wrapped in `vobj`) is truthy. -/
def truthy : JsVal → Bool
  | .vstr s => !s.isEmpty
  | .vobj _ => true

/-- JS object property lookup (`properties[name]`). -/
def lookupProp : JsObj → Str → Option (List JsVal)
  | [], _ => none
  | (k, v) :: rest, name => if k = name then some v else lookupProp rest name

/-- `current[part]` where `current` is a traversal cursor: on a string it
is `undefined`, on an object it is the keyed array. -/
def getIndex : JsVal → Str → Option (List JsVal)
  | .vstr _, _ => none
  | .vobj kvs, name => lookupProp kvs name

/-- The dotted-name walk of `resolveVersion` (src/main.js lines 60-69):
`for (const part of parts) { if (current[part] && current[part][0])
current = current[part][0]; else return null; } return current;`. -/
def resolveNested : JsVal → List Str → Option JsVal
  | cur, [] => some cur
  | cur, seg :: segs =>
    match getIndex cur seg with
    | some arr =>
      match arr.head? with
      | some v => if truthy v then resolveNested v segs else none
      | none => none
    | none => none

/-- `version.startsWith('${') && version.endsWith('}')` test of
`resolveVersion`, returning the property name `version.slice(2, -1)`
when it matches. -/
def refName (version : Str) : Option Str :=
  match version with
  | '$' :: '{' :: rest =>
    if rest.getLast? = some '}' then some rest.dropLast else none
  | _ => none

/-- The tail of `resolveVersion` (src/main.js lines 73-79): the range
check `version.includes('[') && version.includes(']') ||
version.includes('(') || version.includes(')')`, then
`return versionRange.min || version`, else `return version`. -/
def rangeOrLiteral (version : Str) : JsVal :=
  if (('[' ∈ version) ∧ (']' ∈ version)) ∨ ('(' ∈ version) ∨ (')' ∈ version) then
    match (parseVersionRange version).min with
    | some m => if m.isEmpty then JsVal.vstr version else JsVal.vstr m
    | none => JsVal.vstr version
  else JsVal.vstr version

/-- `resolveVersion(version, properties)` (src/main.js lines 46-80).
A `${name}` reference with a property table first tries the direct lookup
`properties[name]` (returning element 0 of the keyed array), then the
dotted nested walk.  With no property table the `if (properties)` block is
skipped and control falls through to the range check, as in the source. -/
def resolveVersion (version : Str) (properties : Option JsObj) : Option JsVal :=
  if version.isEmpty then none
  else
    match refName version, properties with
    | some propertyName, some props =>
      match lookupProp props propertyName with
      | some arr => arr.head?
      | none => resolveNested (JsVal.vobj props) (splitOnChar '.' propertyName)
    | some _, none => some (rangeOrLiteral version)
    | none, _ => some (rangeOrLiteral version)

example : resolveVersion (strOf ("1.2.3")) none = some (JsVal.vstr (strOf ("1.2.3"))) := rfl

example :
    resolveVersion (['$', '{'] ++ strOf ("foo.bar") ++ ['}'])
      (some [(strOf ("foo.bar"), [JsVal.vstr (strOf ("1.2.3"))])])
    = some (JsVal.vstr (strOf ("1.2.3"))) := rfl

example : resolveVersion (['$', '{'] ++ strOf ("foo.bar") ++ ['}']) (some []) = none := rfl

example :
    resolveVersion (['$', '{'] ++ strOf ("foo.bar") ++ ['}'])
      (some [(strOf ("foo"), [JsVal.vobj [(strOf ("bar"), [JsVal.vstr (strOf ("9.9"))])]])])
    = some (JsVal.vstr (strOf ("9.9"))) := rfl

example : resolveVersion (strOf ("[1.0,)")) none = some (JsVal.vstr (strOf ("1.0"))) := rfl

example : resolveVersion (strOf ("[1.0]")) none = some (JsVal.vstr (strOf ("[1.0]"))) := rfl

example : parseVersionRange (strOf ("[1.0,)")) =
    { min := some (strOf ("1.0")), includeMin := true, max := none,
      includeMax := false, exact := none } := rfl

example : parseVersionRange (strOf ("(1.0,2.0)")) =
    { min := none, includeMin := false, max := none, includeMax := false,
      exact := some (strOf ("(1.0,2.0)")) } := rfl

/-! ## Descriptor parsing: `parsePomXml` preprocessing and `getDependencies` -/

/-- A raw `<dependency>` element as xml2js parses it, before the
`parsePomXml` version preprocessing: each present child element is an
array; `<version>` children are version-expression strings. -/
structure XmlDep where
  groupId : Option (List JsVal)
  artifactId : Option (List JsVal)
  version : Option (List Str)

/-- A dependency element after `parsePomXml` preprocessing: the version
array holds the (possibly null) result of `resolveVersion`. -/
structure RawDep where
  groupId : Option (List JsVal)
  artifactId : Option (List JsVal)
  version : Option (List (Option JsVal))

/-- The per-dependency map of `parsePomXml` (src/main.js lines 101-107):
`{...dep, version: dep.version ? [resolveVersion(dep.version[0],
properties)] : []}`.  An absent version array yields the present empty
array `[]`; `dep.version[0]` of an empty array is `undefined`, and
`resolveVersion(undefined)` is null, matching `resolveVersion [] _`. -/
def resolveDep (properties : Option JsObj) (dep : XmlDep) : RawDep :=
  { groupId := dep.groupId, artifactId := dep.artifactId,
    version :=
      match dep.version with
      | some arr => some [resolveVersion (arr.headD []) properties]
      | none => some [] }

/-- The filter of `getDependencies` (src/main.js line 126):
`dep.groupId && dep.artifactId && dep.version && dep.version[0]`.
Arrays are always truthy, so the first three tests are presence tests;
`dep.version[0]` additionally requires a truthy first element. -/
def validRaw (dep : RawDep) : Bool :=
  dep.groupId.isSome && dep.artifactId.isSome &&
    (match dep.version with
     | some arr =>
       match arr.head? with
       | some (some v) => truthy v
       | some none => false
       | none => false
     | none => false)

/-- The object pushed by `getDependencies` (src/main.js lines 127-131):
`{groupId: dep.groupId[0], artifactId: dep.artifactId[0],
version: dep.version[0]}`. -/
structure DepOut where
  groupId : Option JsVal
  artifactId : Option JsVal
  version : Option JsVal

def mkDepOut (dep : RawDep) : DepOut :=
  { groupId := (dep.groupId.getD []).head?,
    artifactId := (dep.artifactId.getD []).head?,
    version := ((dep.version.getD []).head?).bind id }

/-- One element of the xml2js `project.dependencies` array.  A
`<dependencies/>` parsed as the string `''` is a block whose
`.dependency` access yields `undefined` (`none`). -/
structure DepsBlock where
  dependency : Option (List RawDep)

structure PomProject where
  dependencies : Option (List DepsBlock)

structure PomObj where
  project : Option PomProject

/-- `getDependencies(pomObj)` (src/main.js lines 115-146): guard
`pomObj && pomObj.project && pomObj.project.dependencies &&
pomObj.project.dependencies[0].dependency`, then push every dependency
passing `validRaw`.  (xml2js never produces an empty array for a present
element, so the `[0]` access on a present `dependencies` array always
finds an element.) -/
def getDependencies (pomObj : Option PomObj) : List DepOut :=
  match pomObj with
  | none => []
  | some pom =>
    match pom.project with
    | none => []
    | some proj =>
      match proj.dependencies with
      | none => []
      | some blocks =>
        match blocks.head? with
        | none => []
        | some blk =>
          match blk.dependency with
          | none => []
          | some deps =>
            deps.foldl (fun acc dep => if validRaw dep then acc ++ [mkDepOut dep] else acc) []

/-- Wrap a preprocessed dependency list in the xml2js document shape. -/
def mkPom (deps : List RawDep) : Option PomObj :=
  some { project := some { dependencies := some [{ dependency := some deps }] } }

theorem foldl_push_eq_filter_map (p : RawDep → Bool) (f : RawDep → DepOut) :
    ∀ (l : List RawDep) (acc : List DepOut),
      l.foldl (fun a d => if p d then a ++ [f d] else a) acc
        = acc ++ (l.filter p).map f := by
  intro l
  induction l with
  | nil => intro acc; simp
  | cons d l ih =>
    intro acc
    by_cases h : p d
    · simp [List.foldl_cons, h, ih]
    · simp [List.foldl_cons, h, ih]

theorem getDependencies_eq (deps : List RawDep) :
    getDependencies (mkPom deps) = (deps.filter validRaw).map mkDepOut := by
  simp [getDependencies, mkPom]
  exact foldl_push_eq_filter_map validRaw mkDepOut deps []

/-! ## Coordinates and repository layout -/

/-- A dependency coordinate as `downloadDependency` destructures it:
`{groupId, artifactId, version}` with string fields. -/
structure Coord where
  groupId : Str
  artifactId : Str
  version : Str
deriving DecidableEq

/-- The visited-set key `` `${groupId}:${artifactId}:${version}` ``
(src/main.js line 159). -/
def depKey (c : Coord) : Str :=
  c.groupId ++ ':' :: c.artifactId ++ ':' :: c.version

/-- The field validation at src/main.js line 153:
`!groupId || !artifactId || !version` (empty strings are falsy). -/
def validCoord (c : Coord) : Bool :=
  !c.groupId.isEmpty && !c.artifactId.isEmpty && !c.version.isEmpty

/-- The version-range handling of `downloadDependency` (src/main.js lines
169-174): `if (version.includes('[') || version.includes('('))
actualVersion = parseVersionRange(version).min;` — note no `|| version`
fallback here, so a range without a parsed minimum leaves `actualVersion`
as JS `undefined` (`none`). -/
def actualVersionOf (version : Str) : Option Str :=
  if ('[' ∈ version) ∨ ('(' ∈ version) then (parseVersionRange version).min
  else some version

/-- JS template-literal stringification of a possibly-`undefined` value. -/
def jsStr : Option Str → Str
  | some s => s
  | none => strOf ("undefined")

/-- `groupId.replace(/\./g, '/')`. -/
def replaceDots (s : Str) : Str := s.map (fun c => if c = '.' then '/' else c)

def MAVEN_CENTRAL_URL : Str := strOf ("https://repo1.maven.org/maven2")

/-- `artifactPath = groupId.replace(/\./g,'/') + '/' + artifactId + '/' +
actualVersion` (src/main.js line 176). -/
def artifactPathOf (c : Coord) : Str :=
  replaceDots c.groupId ++ '/' :: c.artifactId ++ '/' :: jsStr (actualVersionOf c.version)

/-- `` `${artifactId}-${actualVersion}.jar` `` (src/main.js line 177). -/
def jarNameOf (c : Coord) : Str :=
  c.artifactId ++ '-' :: jsStr (actualVersionOf c.version) ++ strOf (".jar")

/-- `` `${artifactId}-${actualVersion}.pom` `` (src/main.js line 178). -/
def pomNameOf (c : Coord) : Str :=
  c.artifactId ++ '-' :: jsStr (actualVersionOf c.version) ++ strOf (".pom")

/-- `path.join` modelled as separator concatenation (the source only joins
relative segments with no normalisation effects). -/
def pathJoin (a b : Str) : Str := a ++ '/' :: b

def jarUrlOf (c : Coord) : Str :=
  MAVEN_CENTRAL_URL ++ '/' :: artifactPathOf c ++ '/' :: jarNameOf c

def pomUrlOf (c : Coord) : Str :=
  MAVEN_CENTRAL_URL ++ '/' :: artifactPathOf c ++ '/' :: pomNameOf c

def localJarPathOf (repositoryPath : Str) (c : Coord) : Str :=
  pathJoin (pathJoin repositoryPath (artifactPathOf c)) (jarNameOf c)

def localPomPathOf (repositoryPath : Str) (c : Coord) : Str :=
  pathJoin (pathJoin repositoryPath (artifactPathOf c)) (pomNameOf c)

/-! ## The file fetcher `downloadFile` (src/main.js lines 249-345)

The fetcher is modelled as a function of the network's behaviour: each of
the at most two HTTP requests either fails with a connection error, stalls
until the socket idle timeout fires, or yields a response with a status
code and a `Location` header.  Node semantics modelled here: the `timeout`
request option only arms a socket idle timer that emits a `timeout` event
on the request; it does not destroy the request or synthesize an error,
and the source installs no `timeout` listener, so a fired timeout runs no
code of `downloadFile`.  `fs.createWriteStream(dest)` creates the (empty)
destination file immediately.  On a redirect the source calls
`file.close()` (which ends the stream) and unlinks `dest` before reusing
the same, already-ended stream for the follow-up response: a 200 after a
redirect therefore pipes into a closed stream — no data reaches the
destination and the `finish` listener (attached after the stream already
finished) never fires, so the promise never settles. -/

structure ProxyConfig where
  enabled : Bool
  socks : Option Str
  http : Option Str
deriving DecidableEq

inductive Agent where
  | direct
  | socksAgent (addr : Str)
  | httpAgent (addr : Str)
deriving DecidableEq

def httpChoice (cfg : ProxyConfig) : Agent :=
  match cfg.http with
  | some h => if h.isEmpty then Agent.direct else Agent.httpAgent h
  | none => Agent.direct

/-- Proxy-agent selection (src/main.js lines 261-267): SOCKS wins over
HTTP; falsy (absent or empty) entries are skipped. -/
def agentOf (cfg : ProxyConfig) : Agent :=
  if cfg.enabled then
    match cfg.socks with
    | some s => if s.isEmpty then httpChoice cfg else Agent.socksAgent s
    | none => httpChoice cfg
  else Agent.direct

structure ReqOptions where
  userAgent : Str
  accept : Str
  timeoutMs : Nat
  agent : Agent
deriving DecidableEq

def USER_AGENT : Str :=
  strOf ("Mozilla/5.0 (Windows NT 10.0; Win64; x64) AppleWebKit/537.36 (KHTML, like Gecko) Chrome/91.0.4472.124 Safari/537.36")

/-- The `options` object built at src/main.js lines 252-267: fixed headers,
`timeout: 10000`, and the proxy agent. -/
def mkOptions (cfg : ProxyConfig) : ReqOptions :=
  { userAgent := USER_AGENT, accept := strOf ("*/*"), timeoutMs := 10000,
    agent := agentOf cfg }

/-- The `PROXY_CONFIG` constant (src/main.js lines 14-18). -/
def PROXY_CONFIG : ProxyConfig :=
  { enabled := true, socks := some (strOf ("socks5://127.0.0.1:11080")), http := none }

/-- Behaviour of one HTTP request from `downloadFile`'s point of view. -/
inductive NetResp where
  | err
  | timedOut
  | resp (status : Nat) (location : Str)
deriving DecidableEq

/-- Network behaviour of the at most two requests a `downloadFile` call
can issue. -/
structure NetCase where
  first : NetResp
  second : NetResp
deriving DecidableEq

/-- Observable actions of one `downloadFile` call, in program order. -/
inductive DlEv where
  | createStream
  | request (url : Str) (opts : ReqOptions)
  | unlinkDest
  | streamBody
deriving DecidableEq

/-- How the promise returned by `downloadFile` settles.  `pending` marks
the paths on which no handler ever resolves or rejects it. -/
inductive DlOutcome where
  | resolved
  | rejectedNotFound
  | rejectedStatus (code : Nat)
  | rejectedErr
  | pending
deriving DecidableEq

/-- State of the destination path when the call is over. -/
inductive DestState where
  | absent
  | emptyFile
  | written
deriving DecidableEq

structure DlResult where
  outcome : DlOutcome
  dest : DestState
  events : List DlEv
deriving DecidableEq

/-- `downloadFile(url, dest)` (src/main.js lines 249-345), indexed by the
network behaviour `sc`. -/
def downloadFile (url : Str) (cfg : ProxyConfig) (sc : NetCase) : DlResult :=
  let o := mkOptions cfg
  match sc.first with
  | NetResp.err =>
    { outcome := DlOutcome.rejectedErr, dest := DestState.absent,
      events := [DlEv.createStream, DlEv.request url o, DlEv.unlinkDest] }
  | NetResp.timedOut =>
    { outcome := DlOutcome.pending, dest := DestState.emptyFile,
      events := [DlEv.createStream, DlEv.request url o] }
  | NetResp.resp st loc =>
    if st = 301 ∨ st = 302 then
      let base := [DlEv.createStream, DlEv.request url o, DlEv.unlinkDest,
                   DlEv.request loc o]
      match sc.second with
      | NetResp.err =>
        { outcome := DlOutcome.rejectedErr, dest := DestState.absent,
          events := base ++ [DlEv.unlinkDest] }
      | NetResp.timedOut =>
        { outcome := DlOutcome.pending, dest := DestState.absent, events := base }
      | NetResp.resp st2 _ =>
        if st2 = 404 then
          { outcome := DlOutcome.rejectedNotFound, dest := DestState.absent,
            events := base ++ [DlEv.unlinkDest] }
        else if st2 ≠ 200 then
          { outcome := DlOutcome.rejectedStatus st2, dest := DestState.absent,
            events := base ++ [DlEv.unlinkDest] }
        else
          { outcome := DlOutcome.pending, dest := DestState.absent, events := base }
    else if st = 404 then
      { outcome := DlOutcome.rejectedNotFound, dest := DestState.absent,
        events := [DlEv.createStream, DlEv.request url o, DlEv.unlinkDest] }
    else if st ≠ 200 then
      { outcome := DlOutcome.rejectedStatus st, dest := DestState.absent,
        events := [DlEv.createStream, DlEv.request url o, DlEv.unlinkDest] }
    else
      { outcome := DlOutcome.resolved, dest := DestState.written,
        events := [DlEv.createStream, DlEv.request url o, DlEv.streamBody] }

def requestsOf (evs : List DlEv) : List (Str × ReqOptions) :=
  evs.filterMap (fun e =>
    match e with
    | DlEv.request u o => some (u, o)
    | _ => none)

/-! ## The dependency graph walker `downloadDependency` (src/main.js lines 149-246)

The walker is modelled as a state-passing function.  The state carries the
global visited set `downloadedDependencies`, the local filesystem (a map
from path to file size), a chronological event trace, and an `ok` flag that
records whether the modelled recursion budget sufficed.  The environment
abstracts each `downloadFile` call by whether it settles successfully
(assumed to settle, as fetches of the walker do on the modelled paths), the
size of the file it writes, and the transitive-dependency list that
`parsePomXml` + `getDependencies` extract from a descriptor file (`none`
for a parse error, which the source catches and turns into a branch abort).
The `Promise.all` pair of fetches and the chunked `Promise.all` recursion
are sequentialised in source order; every claim proved below is about the
aggregate trace, which this linearisation preserves. -/

/-- Walker events: a coordinate key inserted into the visited set, or a
network fetch begun on behalf of the coordinate with that key. -/
inductive Ev where
  | visitKey (k : Str)
  | fetch (k : Str) (url : Str)
deriving DecidableEq

structure WalkSt where
  visited : List Str
  disk : List (Str × Nat)
  events : List Ev
  ok : Bool
deriving DecidableEq

def initSt (disk : List (Str × Nat)) : WalkSt :=
  { visited := [], disk := disk, events := [], ok := true }

structure Env where
  repositoryPath : Str
  fetchOk : Str → Bool
  fetchSize : Str → Nat
  pomDeps : Str → Option (List Coord)

def diskGet : List (Str × Nat) → Str → Option Nat
  | [], _ => none
  | (p, n) :: rest, q => if p = q then some n else diskGet rest q

/-- `fs.existsSync`. -/
def diskHas (d : List (Str × Nat)) (p : Str) : Bool :=
  (diskGet d p).isSome

/-- `fs.statSync(p).size`, meaningful only when the file exists. -/
def diskSize (d : List (Str × Nat)) (p : Str) : Nat :=
  (diskGet d p).getD 0

/-- `fs.unlink` / `fs.unlinkSync`. -/
def diskRemove : List (Str × Nat) → Str → List (Str × Nat)
  | [], _ => []
  | (p1, n) :: rest, p =>
    if p1 = p then diskRemove rest p else (p1, n) :: diskRemove rest p

/-- A completed download stream at `p` with `n` bytes. -/
def diskSet (d : List (Str × Nat)) (p : Str) (n : Nat) : List (Str × Nat) :=
  (p, n) :: diskRemove d p

/-- One `downloadFile(url, path)` call as the walker observes it: the
fetch event is recorded, then either the file is written (resolution) or
the partial file is deleted (rejection); the Bool is `true` iff the
promise rejected. -/
def fetchFile (env : Env) (key url p : Str) (s : WalkSt) : WalkSt × Bool :=
  let s1 := { s with events := s.events ++ [Ev.fetch key url] }
  if env.fetchOk url then
    ({ s1 with disk := diskSet s1.disk p (env.fetchSize url) }, false)
  else
    ({ s1 with disk := diskRemove s1.disk p }, true)

/-- The visited-set insertion at src/main.js line 166, performed before
any network I/O of the coordinate. -/
def markVisited (key : Str) (s : WalkSt) : WalkSt :=
  { s with visited := s.visited ++ [key], events := s.events ++ [Ev.visitKey key] }

/-- The skip-or-fetch choice for one of the two files (src/main.js lines
190-205): `if (!fs.existsSync(path)) downloadTasks.push(downloadFile(url,
path))` — an existence test only, no size test. -/
def fetchIfMissing (env : Env) (key url p : Str) (s : WalkSt) : WalkSt × Bool :=
  if diskHas s.disk p then (s, false)
  else fetchFile env key url p s

/-- The descriptor checks and parse after both files settle (src/main.js
lines 213-239): missing pom aborts; empty pom is deleted and aborts; a
parse failure aborts; otherwise the transitive dependencies are returned
for recursion. -/
def pomPhase (env : Env) (localPom : Str) (s : WalkSt) : WalkSt × List Coord :=
  if !diskHas s.disk localPom then (s, [])
  else if diskSize s.disk localPom = 0 then
    ({ s with disk := diskRemove s.disk localPom }, [])
  else
    match env.pomDeps localPom with
    | none => (s, [])
    | some tds => (s, tds)

/-- The jar skip-or-fetch of src/main.js lines 190-196. -/
def jarStep (env : Env) (dep : Coord) (s : WalkSt) : WalkSt × Bool :=
  fetchIfMissing env (depKey dep) (jarUrlOf dep) (localJarPathOf env.repositoryPath dep) s

/-- The pom skip-or-fetch of src/main.js lines 199-205. -/
def pomFetchStep (env : Env) (dep : Coord) (s : WalkSt) : WalkSt × Bool :=
  fetchIfMissing env (depKey dep) (pomUrlOf dep) (localPomPathOf env.repositoryPath dep) s

/-- The body of `downloadDependency` for a valid, not-yet-visited
coordinate: mark visited, settle the two files, then the descriptor
phase.  If either fetch rejected, the `catch` at src/main.js line 243
aborts the branch (both fetches have already run their side effects). -/
def stepBody (env : Env) (dep : Coord) (s : WalkSt) : WalkSt × List Coord :=
  let s1 := markVisited (depKey dep) s
  let r1 := jarStep env dep s1
  let r2 := pomFetchStep env dep r1.1
  if r1.2 || r2.2 then (r2.1, [])
  else pomPhase env (localPomPathOf env.repositoryPath dep) r2.1

/-- One non-recursive step of `downloadDependency`: field validation,
visited-set dedup, then the body; the returned list is the transitive
dependency list still to be walked. -/
def downloadDependencyStep (env : Env) (dep : Coord) (s : WalkSt) : WalkSt × List Coord :=
  if !validCoord dep then (s, [])
  else if depKey dep ∈ s.visited then (s, [])
  else stepBody env dep s

/-- `downloadDependency(dependency, repositoryPath)` with an explicit
recursion budget: each nesting level consumes one unit of fuel, and an
exhausted budget clears the `ok` flag (the real recursion needs no budget;
the termination claim proves any budget exceeding the number of distinct
unvisited coordinate keys suffices). -/
def downloadDependency (env : Env) : Nat → Coord → WalkSt → WalkSt
  | 0, _, s => { s with ok := false }
  | fuel + 1, dep, s =>
    let r := downloadDependencyStep env dep s
    r.2.foldl (fun acc d => downloadDependency env fuel d acc) r.1

/-- Keys inserted into the visited set, in trace order: the coordinates
the walker actually processed. -/
def keyseen (evs : List Ev) : List Str :=
  evs.filterMap (fun e =>
    match e with
    | Ev.visitKey k => some k
    | Ev.fetch _ _ => none)

/-- URLs for which a network fetch began, in trace order. -/
def fetchEvs (evs : List Ev) : List Str :=
  evs.filterMap (fun e =>
    match e with
    | Ev.fetch _ u => some u
    | Ev.visitKey _ => none)

/-- Every fetch event is preceded by the insertion of its coordinate's
key: `favFrom seen evs` says each `fetch k _` in `evs` has `k` among
`seen` or among the `visitKey`s occurring earlier in `evs`. -/
def favFrom : List Str → List Ev → Prop
  | _, [] => True
  | seen, Ev.visitKey k :: rest => favFrom (k :: seen) rest
  | seen, Ev.fetch k _ :: rest => k ∈ seen ∧ favFrom seen rest

/-! ## Concrete environments used by the claims -/

def cR : Coord := { groupId := strOf ("g"), artifactId := strOf ("r"), version := strOf ("1") }
def cX : Coord := { groupId := strOf ("g"), artifactId := strOf ("x"), version := strOf ("1") }
def cY : Coord := { groupId := strOf ("g"), artifactId := strOf ("y"), version := strOf ("1") }
def cD : Coord := { groupId := strOf ("g"), artifactId := strOf ("d"), version := strOf ("1") }

def repoPath : Str := strOf ("repo")

def diamondPomDeps : Str → Option (List Coord) := fun p =>
  if p = localPomPathOf repoPath cR then some [cX, cY]
  else if p = localPomPathOf repoPath cX then some [cD]
  else if p = localPomPathOf repoPath cY then some [cD]
  else some []

/-- Diamond graph: the root depends on `x` and `y`, and each of those
depends on the same `d`. -/
def envDiamond : Env :=
  { repositoryPath := repoPath,
    fetchOk := fun _ => true,
    fetchSize := fun _ => 1,
    pomDeps := diamondPomDeps }

def cA : Coord := { groupId := strOf ("g"), artifactId := strOf ("a"), version := strOf ("1") }
def cB : Coord := { groupId := strOf ("g"), artifactId := strOf ("b"), version := strOf ("1") }

def cyclePomDeps : Str → Option (List Coord) := fun p =>
  if p = localPomPathOf repoPath cA then some [cB]
  else if p = localPomPathOf repoPath cB then some [cA]
  else some []

/-- Cyclic graph: `a` depends on `b` and `b` depends on `a`. -/
def envCycle : Env :=
  { repositoryPath := repoPath,
    fetchOk := fun _ => true,
    fetchSize := fun _ => 1,
    pomDeps := cyclePomDeps }

example :
    (keyseen (downloadDependency envDiamond 5 cR (initSt [])).events)
      = [depKey cR, depKey cX, depKey cD, depKey cY] := by decide

example : (downloadDependency envDiamond 5 cR (initSt [])).ok = true := by decide

example :
    (keyseen (downloadDependency envCycle 4 cA (initSt [])).events)
      = [depKey cA, depKey cB] := by decide

example :
    (fetchEvs (downloadDependency envCycle 4 cA (initSt [])).events)
      = [jarUrlOf cA, pomUrlOf cA, jarUrlOf cB, pomUrlOf cB] := by decide

example : (downloadDependency envCycle 4 cA (initSt [])).ok = true := by decide

/-! ## Trace and filesystem helper lemmas -/

theorem keyseen_append (a b : List Ev) : keyseen (a ++ b) = keyseen a ++ keyseen b := by
  simp [keyseen, List.filterMap_append]

theorem fetchEvs_append (a b : List Ev) : fetchEvs (a ++ b) = fetchEvs a ++ fetchEvs b := by
  simp [fetchEvs, List.filterMap_append]

/-- Keys visible after scanning `a` with `seen` already inserted. -/
def seenAfter (seen : List Str) (a : List Ev) : List Str :=
  (keyseen a).reverse ++ seen

theorem seenAfter_visit (seen : List Str) (k : Str) (a : List Ev) :
    seenAfter seen (Ev.visitKey k :: a) = seenAfter (k :: seen) a := by
  simp [seenAfter, keyseen, List.filterMap_cons, List.append_assoc]

theorem seenAfter_fetch (seen : List Str) (k u : Str) (a : List Ev) :
    seenAfter seen (Ev.fetch k u :: a) = seenAfter seen a := by
  simp [seenAfter, keyseen, List.filterMap_cons]

theorem mem_seenAfter {x : Str} {seen : List Str} {a : List Ev} :
    x ∈ seenAfter seen a ↔ x ∈ keyseen a ∨ x ∈ seen := by
  simp [seenAfter]

theorem favFrom_append :
    ∀ (a : List Ev) (seen : List Str) (b : List Ev),
      favFrom seen (a ++ b) ↔ (favFrom seen a ∧ favFrom (seenAfter seen a) b) := by
  intro a
  induction a with
  | nil =>
    intro seen b
    simp [favFrom, seenAfter, keyseen]
  | cons e a ih =>
    intro seen b
    cases e with
    | visitKey k =>
      rw [List.cons_append]
      show favFrom (k :: seen) (a ++ b) ↔ _
      rw [ih, seenAfter_visit]
      exact Iff.rfl
    | fetch k u =>
      rw [List.cons_append]
      show (k ∈ seen ∧ favFrom seen (a ++ b)) ↔ ((k ∈ seen ∧ favFrom seen a) ∧ _)
      rw [ih, seenAfter_fetch]
      tauto

theorem favFrom_fetches :
    ∀ (fs : List Ev) (k : Str) (seen : List Str),
      (∀ e ∈ fs, ∃ u, e = Ev.fetch k u) → k ∈ seen → favFrom seen fs := by
  intro fs
  induction fs with
  | nil => intro k seen _ _; trivial
  | cons e fs ih =>
    intro k seen hshape hk
    obtain ⟨u, rfl⟩ := hshape e (List.mem_cons_self e fs)
    exact ⟨hk, ih k seen (fun x hx => hshape x (List.mem_cons_of_mem _ hx)) hk⟩

theorem keyseen_fetches :
    ∀ (fs : List Ev) (k : Str), (∀ e ∈ fs, ∃ u, e = Ev.fetch k u) → keyseen fs = [] := by
  intro fs
  induction fs with
  | nil => intro k _; rfl
  | cons e fs ih =>
    intro k hshape
    obtain ⟨u, rfl⟩ := hshape e (List.mem_cons_self e fs)
    simpa [keyseen, List.filterMap_cons] using
      ih k (fun x hx => hshape x (List.mem_cons_of_mem _ hx))

theorem fetchEvs_of_fetch (k u : Str) : fetchEvs [Ev.fetch k u] = [u] := rfl

theorem diskGet_remove_ne (d : List (Str × Nat)) (p q : Str) (h : ¬ p = q) :
    diskGet (diskRemove d p) q = diskGet d q := by
  induction d with
  | nil => rfl
  | cons e d ih =>
    obtain ⟨p1, n1⟩ := e
    by_cases he : p1 = p
    · have hq : ¬ p1 = q := by rw [he]; exact h
      simp only [diskRemove, if_pos he, diskGet, if_neg hq]
      exact ih
    · simp only [diskRemove, if_neg he, diskGet]
      by_cases hq : p1 = q
      · simp [hq]
      · simp only [if_neg hq]
        exact ih

theorem diskGet_set_ne (d : List (Str × Nat)) (p : Str) (n : Nat) (q : Str) (h : ¬ p = q) :
    diskGet (diskSet d p n) q = diskGet d q := by
  simp only [diskSet, diskGet, if_neg h]
  exact diskGet_remove_ne d p q h

theorem getLastq_append_cons (a : List Char) (c : Char) (l : List Char) :
    (a ++ (c :: l)).getLast? = (c :: l).getLast? := by
  rw [List.getLast?_append]
  cases h : (c :: l).getLast? with
  | none => simp at h
  | some x => rfl

theorem jarName_last (c : Coord) : (jarNameOf c).getLast? = some 'r' := by
  show ((c.artifactId ++ '-' :: jsStr (actualVersionOf c.version)) ++
    ('.' :: ['j', 'a', 'r'])).getLast? = some 'r'
  rw [getLastq_append_cons]
  rfl

theorem pomName_last (c : Coord) : (pomNameOf c).getLast? = some 'm' := by
  show ((c.artifactId ++ '-' :: jsStr (actualVersionOf c.version)) ++
    ('.' :: ['p', 'o', 'm'])).getLast? = some 'm'
  rw [getLastq_append_cons]
  rfl

theorem localJar_last (repo : Str) (c : Coord) :
    (localJarPathOf repo c).getLast? = some 'r' := by
  show ((pathJoin repo (artifactPathOf c)) ++ ('/' :: jarNameOf c)).getLast? = some 'r'
  rw [getLastq_append_cons]
  show (('/' :: (c.artifactId ++ '-' :: jsStr (actualVersionOf c.version))) ++
    ('.' :: ['j', 'a', 'r'])).getLast? = some 'r'
  rw [getLastq_append_cons]
  rfl

theorem localPom_last (repo : Str) (c : Coord) :
    (localPomPathOf repo c).getLast? = some 'm' := by
  show ((pathJoin repo (artifactPathOf c)) ++ ('/' :: pomNameOf c)).getLast? = some 'm'
  rw [getLastq_append_cons]
  show (('/' :: (c.artifactId ++ '-' :: jsStr (actualVersionOf c.version))) ++
    ('.' :: ['p', 'o', 'm'])).getLast? = some 'm'
  rw [getLastq_append_cons]
  rfl

/-- The two local files of one coordinate never share a path. -/
theorem localJar_ne_localPom (repo : Str) (c : Coord) :
    ¬ localJarPathOf repo c = localPomPathOf repo c := by
  intro h
  have h1 := localJar_last repo c
  rw [h, localPom_last repo c] at h1
  exact absurd (Option.some.inj h1) (by decide)

/-! ## Shape lemmas for the walker step -/

theorem fetchFile_shape (env : Env) (key url p : Str) (s : WalkSt) :
    ∃ d, (fetchFile env key url p s).1 =
      { visited := s.visited, disk := d,
        events := s.events ++ [Ev.fetch key url], ok := s.ok } := by
  unfold fetchFile
  by_cases h : env.fetchOk url
  · exact ⟨diskSet s.disk p (env.fetchSize url), by simp [h]⟩
  · exact ⟨diskRemove s.disk p, by simp [h]⟩

theorem fetchIfMissing_shape (env : Env) (key url p : Str) (s : WalkSt) :
    ∃ fs d, (∀ e ∈ fs, ∃ u, e = Ev.fetch key u) ∧
      (fetchIfMissing env key url p s).1 =
        { visited := s.visited, disk := d, events := s.events ++ fs, ok := s.ok } := by
  unfold fetchIfMissing
  by_cases h : diskHas s.disk p
  · exact ⟨[], s.disk, by simp, by simp [h]⟩
  · obtain ⟨d, hd⟩ := fetchFile_shape env key url p s
    exact ⟨[Ev.fetch key url], d, by simp, by simp [h, hd]⟩

theorem jarStep_shape (env : Env) (dep : Coord) (s : WalkSt) :
    ∃ fs d, (∀ e ∈ fs, ∃ u, e = Ev.fetch (depKey dep) u) ∧
      (jarStep env dep s).1 =
        { visited := s.visited, disk := d, events := s.events ++ fs, ok := s.ok } :=
  fetchIfMissing_shape env (depKey dep) (jarUrlOf dep) (localJarPathOf env.repositoryPath dep) s

theorem pomFetchStep_shape (env : Env) (dep : Coord) (s : WalkSt) :
    ∃ fs d, (∀ e ∈ fs, ∃ u, e = Ev.fetch (depKey dep) u) ∧
      (pomFetchStep env dep s).1 =
        { visited := s.visited, disk := d, events := s.events ++ fs, ok := s.ok } :=
  fetchIfMissing_shape env (depKey dep) (pomUrlOf dep) (localPomPathOf env.repositoryPath dep) s

theorem pomPhase_shape (env : Env) (lp : Str) (s : WalkSt) :
    ∃ d, (pomPhase env lp s).1 =
      { visited := s.visited, disk := d, events := s.events, ok := s.ok } := by
  unfold pomPhase
  by_cases h1 : diskHas s.disk lp
  · by_cases h2 : diskSize s.disk lp = 0
    · exact ⟨diskRemove s.disk lp, by simp [h1, h2]⟩
    · cases h3 : env.pomDeps lp with
      | none => exact ⟨s.disk, by simp [h1, h2, h3]⟩
      | some tds => exact ⟨s.disk, by simp [h1, h2, h3]⟩
  · exact ⟨s.disk, by simp [h1]⟩

theorem pomPhase_children (env : Env) (lp : Str) (s : WalkSt) :
    (pomPhase env lp s).2 = [] ∨ ∃ q, env.pomDeps q = some (pomPhase env lp s).2 := by
  unfold pomPhase
  by_cases h1 : diskHas s.disk lp
  · by_cases h2 : diskSize s.disk lp = 0
    · left; simp [h1, h2]
    · cases h3 : env.pomDeps lp with
      | none => left; simp [h1, h2, h3]
      | some tds => right; exact ⟨lp, by simp [h1, h2, h3]⟩
  · left; simp [h1]

theorem stepBody_shape (env : Env) (dep : Coord) (s : WalkSt) :
    ∃ fs d, (∀ e ∈ fs, ∃ u, e = Ev.fetch (depKey dep) u) ∧
      (stepBody env dep s).1 =
        { visited := s.visited ++ [depKey dep], disk := d,
          events := s.events ++ Ev.visitKey (depKey dep) :: fs, ok := s.ok } := by
  obtain ⟨fs1, d1, hfs1, h1⟩ := jarStep_shape env dep (markVisited (depKey dep) s)
  obtain ⟨fs2, d2, hfs2, h2⟩ :=
    pomFetchStep_shape env dep (jarStep env dep (markVisited (depKey dep) s)).1
  obtain ⟨d3, h3⟩ := pomPhase_shape env (localPomPathOf env.repositoryPath dep)
    (pomFetchStep env dep (jarStep env dep (markVisited (depKey dep) s)).1).1
  have hmem : ∀ e ∈ fs1 ++ fs2, ∃ u, e = Ev.fetch (depKey dep) u := by
    intro e he
    rcases List.mem_append.mp he with h | h
    · exact hfs1 e h
    · exact hfs2 e h
  have hevents :
      ((markVisited (depKey dep) s).events ++ fs1) ++ fs2
        = s.events ++ Ev.visitKey (depKey dep) :: (fs1 ++ fs2) := by
    simp [markVisited, List.append_assoc]
  by_cases hb : ((jarStep env dep (markVisited (depKey dep) s)).2
      || (pomFetchStep env dep (jarStep env dep (markVisited (depKey dep) s)).1).2)
  · refine ⟨fs1 ++ fs2, d2, hmem, ?_⟩
    show (stepBody env dep s).1 = _
    simp only [stepBody]
    rw [if_pos hb]
    rw [h2, h1]
    simp only [markVisited]
    exact congrArg (fun ev => WalkSt.mk (s.visited ++ [depKey dep]) d2 ev s.ok) hevents
  · refine ⟨fs1 ++ fs2, d3, hmem, ?_⟩
    show (stepBody env dep s).1 = _
    simp only [stepBody]
    rw [if_neg hb]
    rw [h3, h2, h1]
    simp only [markVisited]
    exact congrArg (fun ev => WalkSt.mk (s.visited ++ [depKey dep]) d3 ev s.ok) hevents

theorem stepBody_children (env : Env) (dep : Coord) (s : WalkSt) :
    (stepBody env dep s).2 = [] ∨ ∃ q, env.pomDeps q = some (stepBody env dep s).2 := by
  simp only [stepBody]
  by_cases hb : ((jarStep env dep (markVisited (depKey dep) s)).2
      || (pomFetchStep env dep (jarStep env dep (markVisited (depKey dep) s)).1).2)
  · rw [if_pos hb]; left; rfl
  · rw [if_neg hb]
    exact pomPhase_children env (localPomPathOf env.repositoryPath dep)
      (pomFetchStep env dep (jarStep env dep (markVisited (depKey dep) s)).1).1

/-- Case analysis of one walker step: either the coordinate is skipped
(invalid or already visited) and nothing changes, or its key is new, it
is inserted before all the step's fetch events, and the children come
from a parsed descriptor. -/
theorem step_shape (env : Env) (dep : Coord) (s : WalkSt) :
    downloadDependencyStep env dep s = (s, []) ∨
    (depKey dep ∉ s.visited ∧
      (∃ fs d, (∀ e ∈ fs, ∃ u, e = Ev.fetch (depKey dep) u) ∧
        (downloadDependencyStep env dep s).1 =
          { visited := s.visited ++ [depKey dep], disk := d,
            events := s.events ++ Ev.visitKey (depKey dep) :: fs, ok := s.ok }) ∧
      ((downloadDependencyStep env dep s).2 = [] ∨
        ∃ q, env.pomDeps q = some (downloadDependencyStep env dep s).2)) := by
  by_cases hv : validCoord dep
  · by_cases hm : depKey dep ∈ s.visited
    · left; simp [downloadDependencyStep, hv, hm]
    · right
      have hstep : downloadDependencyStep env dep s = stepBody env dep s := by
        simp [downloadDependencyStep, hv, hm]
      refine ⟨hm, ?_, ?_⟩
      · obtain ⟨fs, d, hfs, hbody⟩ := stepBody_shape env dep s
        exact ⟨fs, d, hfs, by rw [hstep]; exact hbody⟩
      · rw [hstep]
        exact stepBody_children env dep s
  · left; simp [downloadDependencyStep, hv]

/-! ## Generic preservation machinery over the walker recursion -/

theorem foldl_rel (R : WalkSt → WalkSt → Prop) (G : Coord → Prop)
    (hrefl : ∀ s, R s s)
    (htrans : ∀ a b c, R a b → R b c → R a c)
    (f : Coord → WalkSt → WalkSt)
    (hf : ∀ d s, G d → R s (f d s)) :
    ∀ (l : List Coord) (s : WalkSt), (∀ c ∈ l, G c) →
      R s (l.foldl (fun acc d => f d acc) s) := by
  intro l
  induction l with
  | nil => intro s _; exact hrefl s
  | cons d l ih =>
    intro s hG
    have h1 : R s (f d s) := hf d s (hG d (List.mem_cons_self d l))
    have h2 : R (f d s) ((l.foldl (fun acc d => f d acc) (f d s))) :=
      ih (f d s) (fun c hc => hG c (List.mem_cons_of_mem _ hc))
    exact htrans _ _ _ h1 h2

theorem dd_rel (env : Env) (G : Coord → Prop) (R : WalkSt → WalkSt → Prop)
    (hrefl : ∀ s, R s s)
    (htrans : ∀ a b c, R a b → R b c → R a c)
    (hfuel : ∀ s, R s { s with ok := false })
    (hstep : ∀ dep s, G dep → R s (downloadDependencyStep env dep s).1)
    (hchild : ∀ dep s c, G dep → c ∈ (downloadDependencyStep env dep s).2 → G c) :
    ∀ (n : Nat) (dep : Coord) (s : WalkSt), G dep →
      R s (downloadDependency env n dep s) := by
  intro n
  induction n with
  | zero => intro dep s _; exact hfuel s
  | succ n ih =>
    intro dep s hG
    show R s ((downloadDependencyStep env dep s).2.foldl
      (fun acc d => downloadDependency env n d acc) (downloadDependencyStep env dep s).1)
    have h1 : R s (downloadDependencyStep env dep s).1 := hstep dep s hG
    have h2 := foldl_rel R G hrefl htrans (downloadDependency env n)
      (fun d s hGd => ih d s hGd)
      (downloadDependencyStep env dep s).2 (downloadDependencyStep env dep s).1
      (fun c hc => hchild dep s c hG hc)
    exact htrans _ _ _ h1 h2

/-- The walker only appends to the visited set and to the event trace. -/
def Rext (s t : WalkSt) : Prop :=
  (∃ v, t.visited = s.visited ++ v) ∧ (∃ e, t.events = s.events ++ e)

theorem Rext_refl (s : WalkSt) : Rext s s :=
  ⟨⟨[], by simp⟩, ⟨[], by simp⟩⟩

theorem Rext_trans (a b c : WalkSt) : Rext a b → Rext b c → Rext a c := by
  rintro ⟨⟨v1, hv1⟩, ⟨e1, he1⟩⟩ ⟨⟨v2, hv2⟩, ⟨e2, he2⟩⟩
  exact ⟨⟨v1 ++ v2, by rw [hv2, hv1, List.append_assoc]⟩,
         ⟨e1 ++ e2, by rw [he2, he1, List.append_assoc]⟩⟩

theorem step_Rext (env : Env) (dep : Coord) (s : WalkSt) :
    Rext s (downloadDependencyStep env dep s).1 := by
  rcases step_shape env dep s with h | ⟨_, ⟨fs, d, _, heq⟩, _⟩
  · rw [h]; exact Rext_refl s
  · rw [heq]
    exact ⟨⟨[depKey dep], rfl⟩, ⟨Ev.visitKey (depKey dep) :: fs, rfl⟩⟩

theorem dd_Rext (env : Env) (n : Nat) (dep : Coord) (s : WalkSt) :
    Rext s (downloadDependency env n dep s) := by
  exact dd_rel env (fun _ => True) Rext Rext_refl Rext_trans
    (fun s => ⟨⟨[], by simp⟩, ⟨[], by simp⟩⟩)
    (fun dep s _ => step_Rext env dep s)
    (fun _ _ _ _ _ => trivial) n dep s trivial

/-! ## The C1 invariant: dedup and visit-before-fetch -/

/-- The walker trace invariant: every fetch is preceded by its key's
insertion, every inserted key is in the visited set, and no key is
inserted twice. -/
def InvSt (s : WalkSt) : Prop :=
  favFrom [] s.events ∧ (∀ k ∈ keyseen s.events, k ∈ s.visited) ∧
    (keyseen s.events).Nodup

theorem step_InvSt (env : Env) (dep : Coord) (s : WalkSt) :
    InvSt s → InvSt (downloadDependencyStep env dep s).1 := by
  intro hs
  rcases step_shape env dep s with h | ⟨hnot, ⟨fs, d, hfs, heq⟩, _⟩
  · rw [h]; exact hs
  · obtain ⟨hfav, hsub, hnd⟩ := hs
    rw [heq]
    have hkfs : keyseen fs = [] := keyseen_fetches fs (depKey dep) hfs
    have hkeys : keyseen (s.events ++ Ev.visitKey (depKey dep) :: fs)
        = keyseen s.events ++ [depKey dep] := by
      rw [keyseen_append]
      simp [keyseen, List.filterMap_cons, hkfs]
      simpa [keyseen] using hkfs
    refine ⟨?_, ?_, ?_⟩
    · show favFrom [] (s.events ++ Ev.visitKey (depKey dep) :: fs)
      rw [favFrom_append]
      refine ⟨hfav, ?_⟩
      show favFrom (depKey dep :: seenAfter [] s.events) fs
      exact favFrom_fetches fs (depKey dep) _ hfs (List.mem_cons_self _ _)
    · intro k hk
      rw [hkeys] at hk
      rcases List.mem_append.mp hk with h | h
      · exact List.mem_append_left _ (hsub k h)
      · rw [List.mem_singleton.mp h]
        exact List.mem_append_right _ (List.mem_singleton_self _)
    · rw [hkeys]
      rw [List.nodup_append]
      refine ⟨hnd, List.nodup_singleton _, ?_⟩
      intro k hk1 hk2
      rw [List.mem_singleton.mp hk2] at hk1
      exact hnot (hsub _ hk1)

theorem dd_InvSt (env : Env) (n : Nat) (dep : Coord) (s : WalkSt) :
    InvSt s → InvSt (downloadDependency env n dep s) := by
  intro hs
  refine dd_rel env (fun _ => True) (fun a b => InvSt a → InvSt b)
    (fun _ h => h) (fun a b c h1 h2 h => h2 (h1 h)) (fun s h => h)
    (fun dep s _ => step_InvSt env dep s) (fun _ _ _ _ _ => trivial)
    n dep s trivial hs

/-- C1: In any run the walker processes (fetches) each coordinate key
"group:artifact:version" at most once: the key list inserted into the
visited set is duplicate-free, and every fetch event is preceded in the
trace by the insertion of its coordinate's key (the key is inserted before
any network I/O for that coordinate begins).  On the concrete diamond
graph (root → x, y; x → d; y → d) the shared coordinate `d` is processed
once and its jar is fetched exactly once. -/
theorem claim_C1 :
    (∀ (env : Env) (n : Nat) (dep : Coord) (disk0 : List (Str × Nat)),
      (keyseen (downloadDependency env n dep (initSt disk0)).events).Nodup ∧
      favFrom [] (downloadDependency env n dep (initSt disk0)).events) ∧
    (keyseen (downloadDependency envDiamond 5 cR (initSt [])).events
      = [depKey cR, depKey cX, depKey cD, depKey cY]) ∧
    ((fetchEvs (downloadDependency envDiamond 5 cR (initSt [])).events).count
      (jarUrlOf cD) = 1) := by
  refine ⟨?_, by decide, by decide⟩
  intro env n dep disk0
  have h0 : InvSt (initSt disk0) := by
    refine ⟨trivial, ?_, ?_⟩
    · intro k hk; simp [keyseen, initSt] at hk
    · simp [keyseen, initSt]
  obtain ⟨h1, h2, h3⟩ := dd_InvSt env n dep (initSt disk0) h0
  exact ⟨h3, h1⟩

/-! ## Termination: the visited set strictly grows (claim C3) -/

theorem length_filter_le_of_imp (p q : Str → Bool)
    (h : ∀ x, p x = true → q x = true) :
    ∀ l : List Str, (l.filter p).length ≤ (l.filter q).length := by
  intro l
  induction l with
  | nil => simp
  | cons a l ih =>
    by_cases hp : p a = true
    · have hq := h a hp
      simp [List.filter_cons, hp, hq]
      omega
    · by_cases hq : q a = true
      · simp [List.filter_cons, hp, hq]
        omega
      · simp [List.filter_cons, hp, hq]
        exact ih

theorem length_filter_lt_of_imp (p q : Str → Bool)
    (h : ∀ x, p x = true → q x = true) (k : Str) :
    ∀ l : List Str, k ∈ l → p k = false → q k = true →
      (l.filter p).length < (l.filter q).length := by
  intro l
  induction l with
  | nil => intro h1; exact absurd h1 (List.not_mem_nil k)
  | cons a l ih =>
    intro hk hp hq
    rcases List.mem_cons.mp hk with rfl | hmem
    · simp [List.filter_cons, hp, hq]
      have := length_filter_le_of_imp p q h l
      omega
    · by_cases hpa : p a = true
      · have hqa := h a hpa
        simp [List.filter_cons, hpa, hqa]
        have := ih hmem hp hq
        omega
      · by_cases hqa : q a = true
        · simp [List.filter_cons, hpa, hqa]
          have := ih hmem hp hq
          omega
        · simp [List.filter_cons, hpa, hqa]
          exact ih hmem hp hq

/-- Number of coordinate keys of the universe `U` not yet visited. -/
def unvisitedCount (U : List Coord) (visited : List Str) : Nat :=
  ((U.map depKey).filter (fun k => decide (¬ k ∈ visited))).length

theorem unvisitedCount_insert_lt (U : List Coord) (visited : List Str) (dep : Coord)
    (hU : dep ∈ U) (hnv : depKey dep ∉ visited) :
    unvisitedCount U (visited ++ [depKey dep]) < unvisitedCount U visited := by
  apply length_filter_lt_of_imp _ _ ?_ (depKey dep) (U.map depKey)
    (List.mem_map_of_mem depKey hU) ?_ ?_
  · intro x hx
    simp only [decide_eq_true_eq] at hx ⊢
    exact fun hmem => hx (List.mem_append_left _ hmem)
  · simp
  · simp [hnv]

theorem unvisitedCount_le_append (U : List Coord) (visited ext : List Str) :
    unvisitedCount U (visited ++ ext) ≤ unvisitedCount U visited := by
  apply length_filter_le_of_imp
  intro x hx
  simp only [decide_eq_true_eq] at hx ⊢
  exact fun hmem => hx (List.mem_append_left _ hmem)

/-- The environment's descriptor graph stays inside the universe `U`. -/
def EnvClosed (env : Env) (U : List Coord) : Prop :=
  ∀ p l c, env.pomDeps p = some l → c ∈ l → c ∈ U

theorem foldl_ok (env : Env) (U : List Coord) (n : Nat)
    (ih : ∀ dep s, dep ∈ U → unvisitedCount U s.visited < n →
      (downloadDependency env n dep s).ok = s.ok) :
    ∀ (l : List Coord) (s : WalkSt), (∀ c ∈ l, c ∈ U) →
      unvisitedCount U s.visited < n →
      ((l.foldl (fun acc d => downloadDependency env n d acc) s).ok = s.ok ∧
       unvisitedCount U (l.foldl (fun acc d => downloadDependency env n d acc) s).visited < n) := by
  intro l
  induction l with
  | nil => intro s _ h; exact ⟨rfl, h⟩
  | cons d0 l ihl =>
    intro s hG hc
    have h1 : (downloadDependency env n d0 s).ok = s.ok :=
      ih d0 s (hG d0 (List.mem_cons_self d0 l)) hc
    obtain ⟨⟨v, hv⟩, _⟩ := dd_Rext env n d0 s
    have hc' : unvisitedCount U (downloadDependency env n d0 s).visited < n := by
      rw [hv]
      have := unvisitedCount_le_append U s.visited v
      omega
    have hrec := ihl (downloadDependency env n d0 s)
      (fun c hcm => hG c (List.mem_cons_of_mem _ hcm)) hc'
    refine ⟨?_, ?_⟩
    · show (List.foldl (fun acc d => downloadDependency env n d acc)
        (downloadDependency env n d0 s) l).ok = s.ok
      rw [hrec.1, h1]
    · exact hrec.2

theorem dd_ok (env : Env) (U : List Coord) (hcl : EnvClosed env U) :
    ∀ (n : Nat) (dep : Coord) (s : WalkSt), dep ∈ U →
      unvisitedCount U s.visited < n →
      (downloadDependency env n dep s).ok = s.ok := by
  intro n
  induction n with
  | zero => intro dep s _ h; exact absurd h (Nat.not_lt_zero _)
  | succ n ih =>
    intro dep s hU hn
    show ((downloadDependencyStep env dep s).2.foldl
      (fun acc d => downloadDependency env n d acc)
      (downloadDependencyStep env dep s).1).ok = s.ok
    rcases step_shape env dep s with h | ⟨hnot, ⟨fs, d, hfs, heq⟩, hch⟩
    · rw [h]
      rfl
    · have hcount : unvisitedCount U (downloadDependencyStep env dep s).1.visited < n := by
        rw [heq]
        show unvisitedCount U (s.visited ++ [depKey dep]) < n
        have hlt := unvisitedCount_insert_lt U s.visited dep hU hnot
        omega
      have hok1 : (downloadDependencyStep env dep s).1.ok = s.ok := by rw [heq]
      have hchU : ∀ c ∈ (downloadDependencyStep env dep s).2, c ∈ U := by
        rcases hch with h0 | ⟨q, hq⟩
        · rw [h0]; intro c hc; exact absurd hc (List.not_mem_nil c)
        · intro c hc; exact hcl q _ c hq hc
      have hfold := foldl_ok env U n ih (downloadDependencyStep env dep s).2
        (downloadDependencyStep env dep s).1 hchU hcount
      rw [hfold.1, hok1]

/-- C3: For every finite coordinate universe closed under the descriptor
graph, the recursive walk terminates: any recursion budget exceeding the
number of distinct unvisited coordinate keys is never exhausted (the `ok`
flag is preserved), because the visited set strictly grows before each
recursion and is checked first.  On the concrete two-node cycle
(a depends on b, b depends on a) the walk converges with each of `a` and
`b` processed once and fetched exactly once. -/
theorem claim_C3 :
    (∀ (env : Env) (U : List Coord) (n : Nat) (dep : Coord) (s : WalkSt),
      EnvClosed env U → dep ∈ U → unvisitedCount U s.visited < n →
      (downloadDependency env n dep s).ok = s.ok) ∧
    ((downloadDependency envCycle 4 cA (initSt [])).ok = true ∧
     keyseen (downloadDependency envCycle 4 cA (initSt [])).events
       = [depKey cA, depKey cB] ∧
     fetchEvs (downloadDependency envCycle 4 cA (initSt [])).events
       = [jarUrlOf cA, pomUrlOf cA, jarUrlOf cB, pomUrlOf cB]) := by
  refine ⟨?_, by decide, by decide, by decide⟩
  intro env U n dep s hcl hU hn
  exact dd_ok env U hcl n dep s hU hn

/-- Witness for C3: the general termination theorem applied to the cyclic
environment with universe `[cA, cB]` and budget 4. -/
theorem claim_C3_wit : (downloadDependency envCycle 4 cB (initSt [])).ok = true := by
  have hcl : EnvClosed envCycle [cA, cB] := by
    intro p l c hl hc
    have hl2 : cyclePomDeps p = some l := hl
    simp only [cyclePomDeps] at hl2
    split_ifs at hl2
    · injection hl2 with h
      subst h
      rw [List.mem_singleton] at hc
      subst hc
      exact List.mem_cons_of_mem _ (List.mem_singleton_self _)
    · injection hl2 with h
      subst h
      rw [List.mem_singleton] at hc
      subst hc
      exact List.mem_cons_self _ _
    · injection hl2 with h
      subst h
      exact absurd hc (List.not_mem_nil c)
  exact claim_C3.1 envCycle [cA, cB] 4 cB (initSt []) hcl (by decide) (by decide)

/-! ## Claim C4: the skip-if-exists check -/

theorem fetchIfMissing_events (env : Env) (key url p : Str) (s : WalkSt) :
    (fetchIfMissing env key url p s).1.events
      = s.events ++ (if diskHas s.disk p then [] else [Ev.fetch key url]) := by
  unfold fetchIfMissing fetchFile
  by_cases h : diskHas s.disk p
  · simp [h]
  · by_cases h2 : env.fetchOk url
    · simp [h, h2]
    · simp [h, h2]

theorem fetchIfMissing_disk_ne (env : Env) (key url p q : Str) (s : WalkSt)
    (hne : ¬ p = q) :
    diskGet (fetchIfMissing env key url p s).1.disk q = diskGet s.disk q := by
  unfold fetchIfMissing fetchFile
  by_cases h : diskHas s.disk p
  · simp [h]
  · by_cases h2 : env.fetchOk url
    · simp [h, h2, diskGet_set_ne _ _ _ _ hne]
    · simp [h, h2, diskGet_remove_ne _ _ _ hne]

/-- The events of one walker step on a fresh coordinate: the key
insertion, then a jar fetch exactly when the jar file does not exist,
then a pom fetch exactly when the pom file does not exist — the
existence test is the only condition (no size test). -/
theorem step_fetch_events (env : Env) (dep : Coord) (s : WalkSt)
    (hv : validCoord dep = true) (hm : depKey dep ∉ s.visited) :
    (downloadDependencyStep env dep s).1.events
      = s.events ++ Ev.visitKey (depKey dep)
        :: ((if diskHas s.disk (localJarPathOf env.repositoryPath dep) then []
             else [Ev.fetch (depKey dep) (jarUrlOf dep)]) ++
            (if diskHas s.disk (localPomPathOf env.repositoryPath dep) then []
             else [Ev.fetch (depKey dep) (pomUrlOf dep)])) := by
  have hstep : downloadDependencyStep env dep s = stepBody env dep s := by
    simp [downloadDependencyStep, hv, hm]
  rw [hstep]
  have hev_final : (stepBody env dep s).1.events
      = (pomFetchStep env dep (jarStep env dep (markVisited (depKey dep) s)).1).1.events := by
    simp only [stepBody]
    by_cases hb : ((jarStep env dep (markVisited (depKey dep) s)).2
        || (pomFetchStep env dep (jarStep env dep (markVisited (depKey dep) s)).1).2)
    · rw [if_pos hb]
    · rw [if_neg hb]
      obtain ⟨d3, h3⟩ := pomPhase_shape env (localPomPathOf env.repositoryPath dep)
        (pomFetchStep env dep (jarStep env dep (markVisited (depKey dep) s)).1).1
      rw [h3]
  rw [hev_final]
  rw [show (pomFetchStep env dep (jarStep env dep (markVisited (depKey dep) s)).1)
      = fetchIfMissing env (depKey dep) (pomUrlOf dep)
          (localPomPathOf env.repositoryPath dep)
          (jarStep env dep (markVisited (depKey dep) s)).1 from rfl]
  rw [fetchIfMissing_events]
  have hdisk : diskHas (jarStep env dep (markVisited (depKey dep) s)).1.disk
        (localPomPathOf env.repositoryPath dep)
      = diskHas s.disk (localPomPathOf env.repositoryPath dep) := by
    unfold diskHas
    rw [show (jarStep env dep (markVisited (depKey dep) s))
        = fetchIfMissing env (depKey dep) (jarUrlOf dep)
            (localJarPathOf env.repositoryPath dep) (markVisited (depKey dep) s) from rfl]
    rw [fetchIfMissing_disk_ne env _ _ _ _ _ (localJar_ne_localPom env.repositoryPath dep)]
    rfl
  rw [hdisk]
  rw [show (jarStep env dep (markVisited (depKey dep) s))
      = fetchIfMissing env (depKey dep) (jarUrlOf dep)
          (localJarPathOf env.repositoryPath dep) (markVisited (depKey dep) s) from rfl]
  rw [fetchIfMissing_events]
  simp [markVisited, List.append_assoc]

theorem diskHas_of_size_pos (d : List (Str × Nat)) (p : Str) (h : 0 < diskSize d p) :
    diskHas d p = true := by
  unfold diskSize at h
  unfold diskHas
  cases hg : diskGet d p with
  | none => rw [hg] at h; simp at h
  | some n => simp

theorem step_children_in (env : Env) (U : List Coord) (hcl : EnvClosed env U)
    (dep : Coord) (s : WalkSt) :
    ∀ c ∈ (downloadDependencyStep env dep s).2, c ∈ U := by
  rcases step_shape env dep s with h | ⟨_, _, hch⟩
  · rw [h]; intro c hc; exact absurd hc (List.not_mem_nil c)
  · rcases hch with h0 | ⟨q, hq⟩
    · rw [h0]; intro c hc; exact absurd hc (List.not_mem_nil c)
    · intro c hc; exact hcl q _ c hq hc

theorem step_no_fetch (env : Env) (disk0 : List (Str × Nat)) (dep : Coord)
    (s : WalkSt)
    (hjar : 0 < diskSize disk0 (localJarPathOf env.repositoryPath dep))
    (hpom : 0 < diskSize disk0 (localPomPathOf env.repositoryPath dep))
    (hd : s.disk = disk0) :
    (downloadDependencyStep env dep s).1.disk = disk0 ∧
    fetchEvs (downloadDependencyStep env dep s).1.events = fetchEvs s.events := by
  by_cases hv : validCoord dep
  · by_cases hm : depKey dep ∈ s.visited
    · have h : downloadDependencyStep env dep s = (s, []) := by
        simp [downloadDependencyStep, hv, hm]
      rw [h]
      exact ⟨hd, rfl⟩
    · have hstep : downloadDependencyStep env dep s = stepBody env dep s := by
        simp [downloadDependencyStep, hv, hm]
      have hjarHas : diskHas (markVisited (depKey dep) s).disk
          (localJarPathOf env.repositoryPath dep) = true := by
        show diskHas s.disk _ = true
        rw [hd]
        exact diskHas_of_size_pos _ _ hjar
      have hpomHas : diskHas (markVisited (depKey dep) s).disk
          (localPomPathOf env.repositoryPath dep) = true := by
        show diskHas s.disk _ = true
        rw [hd]
        exact diskHas_of_size_pos _ _ hpom
      have h1 : jarStep env dep (markVisited (depKey dep) s)
          = (markVisited (depKey dep) s, false) := by
        unfold jarStep fetchIfMissing
        rw [if_pos hjarHas]
      have h2 : pomFetchStep env dep (markVisited (depKey dep) s)
          = (markVisited (depKey dep) s, false) := by
        unfold pomFetchStep fetchIfMissing
        rw [if_pos hpomHas]
      have hsz : diskSize (markVisited (depKey dep) s).disk
          (localPomPathOf env.repositoryPath dep) = 0 → False := by
        intro h0
        have : diskSize s.disk (localPomPathOf env.repositoryPath dep) = 0 := h0
        rw [hd] at this
        omega
      have hbody : (stepBody env dep s).1 = markVisited (depKey dep) s := by
        simp only [stepBody, h1, h2]
        rw [if_neg (by simp)]
        unfold pomPhase
        rw [if_neg (by simp [hpomHas])]
        rw [if_neg hsz]
        cases henv : env.pomDeps (localPomPathOf env.repositoryPath dep) with
        | none => rfl
        | some tds => rfl
      rw [hstep, hbody]
      refine ⟨hd, ?_⟩
      show fetchEvs (s.events ++ [Ev.visitKey (depKey dep)]) = fetchEvs s.events
      rw [fetchEvs_append]
      simp [fetchEvs]
  · have h : downloadDependencyStep env dep s = (s, []) := by
      simp [downloadDependencyStep, hv]
    rw [h]
    exact ⟨hd, rfl⟩

/-- C4 (amended): each of the two files is skipped exactly when it already
exists on disk — existence alone, with no non-emptiness test; and a run
against a repository in which every coordinate's jar and pom files already
exist with non-zero size performs zero network fetches. -/
theorem claim_C4 :
    (∀ (env : Env) (dep : Coord) (s : WalkSt),
      validCoord dep = true → depKey dep ∉ s.visited →
      (downloadDependencyStep env dep s).1.events
        = s.events ++ Ev.visitKey (depKey dep)
          :: ((if diskHas s.disk (localJarPathOf env.repositoryPath dep) then []
               else [Ev.fetch (depKey dep) (jarUrlOf dep)]) ++
              (if diskHas s.disk (localPomPathOf env.repositoryPath dep) then []
               else [Ev.fetch (depKey dep) (pomUrlOf dep)]))) ∧
    (∀ (env : Env) (U : List Coord) (n : Nat) (dep : Coord)
        (disk0 : List (Str × Nat)),
      EnvClosed env U → dep ∈ U →
      (∀ c ∈ U, 0 < diskSize disk0 (localJarPathOf env.repositoryPath c) ∧
                0 < diskSize disk0 (localPomPathOf env.repositoryPath c)) →
      fetchEvs (downloadDependency env n dep (initSt disk0)).events = []) := by
  refine ⟨step_fetch_events, ?_⟩
  intro env U n dep disk0 hcl hU hfiles
  have hrel := dd_rel env (fun c => c ∈ U)
    (fun s t => s.disk = disk0 → (t.disk = disk0 ∧ fetchEvs t.events = fetchEvs s.events))
    (fun s hd => ⟨hd, rfl⟩)
    (fun a b c h1 h2 hd => by
      obtain ⟨hb, he⟩ := h1 hd
      obtain ⟨hc, he2⟩ := h2 hb
      exact ⟨hc, by rw [he2, he]⟩)
    (fun s hd => ⟨hd, rfl⟩)
    (fun dep s hG hd =>
      step_no_fetch env disk0 dep s (hfiles dep hG).1 (hfiles dep hG).2 hd)
    (fun dep s c hG hc => step_children_in env U hcl dep s c hc)
    n dep (initSt disk0) hU
  obtain ⟨_, hfe⟩ := hrel rfl
  rw [hfe]
  rfl

/-- Transcription of claim C4's stated skip condition: a file fetch would
be skipped exactly when the file already exists on disk AND is non-empty. -/
def skipIffExistsNonEmpty : Prop :=
  ∀ (env : Env) (dep : Coord) (s : WalkSt),
    validCoord dep = true → depKey dep ∉ s.visited → s.events = [] →
    ((Ev.fetch (depKey dep) (jarUrlOf dep)
        ∉ (downloadDependencyStep env dep s).1.events) ↔
      (diskHas s.disk (localJarPathOf env.repositoryPath dep) = true ∧
       0 < diskSize s.disk (localJarPathOf env.repositoryPath dep)))

def leafPomDeps : Str → Option (List Coord) := fun _ => some []

def envLeaf : Env :=
  { repositoryPath := repoPath, fetchOk := fun _ => true,
    fetchSize := fun _ => 1, pomDeps := leafPomDeps }

/-- The disk of the counterexample: the jar of `cA` exists but is empty
(size zero), its pom exists with content. -/
def c4diskEmptyJar : List (Str × Nat) :=
  [(localJarPathOf repoPath cA, 0), (localPomPathOf repoPath cA, 5)]

/-- C4 counterexample: the code skips an existing zero-length jar file —
the skip condition is existence alone, so "exists and is non-empty" is
not the condition the walker tests (the claim's biconditional fails on an
existing empty file). -/
theorem claim_C4_counterexample : ¬ skipIffExistsNonEmpty := by
  intro h
  have h2 := h envLeaf cA (initSt c4diskEmptyJar) (by decide) (by decide) rfl
  exact absurd (h2.mp (by decide)) (by decide)

def c4diskFull : List (Str × Nat) :=
  [(localJarPathOf repoPath cA, 1), (localPomPathOf repoPath cA, 1)]

/-- Witness for C4: the zero-fetch rerun theorem applied to a one-node
graph whose files all exist non-empty. -/
theorem claim_C4_wit :
    fetchEvs (downloadDependency envLeaf 3 cA (initSt c4diskFull)).events = [] := by
  have hcl : EnvClosed envLeaf [cA] := by
    intro p l c hl hc
    have hl2 : leafPomDeps p = some l := hl
    simp only [leafPomDeps] at hl2
    injection hl2 with h
    subst h
    exact absurd hc (List.not_mem_nil c)
  exact claim_C4.2 envLeaf [cA] 3 cA c4diskFull hcl (by decide) (by decide)

/-! ## Claims about the fetcher `downloadFile` -/

/-- C2: On every exit path of `downloadFile` other than a 200 response
whose body stream completed (the only path that resolves), the
destination is left with no file: 404, any other non-200 status, a
transport error, and the intermediate file discarded on a redirect all
end with the destination deleted.  (Paths on which the promise never
settles are not exit paths.) -/
theorem claim_C2 : ∀ (url : Str) (cfg : ProxyConfig) (sc : NetCase),
    (downloadFile url cfg sc).outcome ≠ DlOutcome.pending →
    (downloadFile url cfg sc).outcome ≠ DlOutcome.resolved →
    (downloadFile url cfg sc).dest = DestState.absent := by
  intro url cfg sc h1 h2
  obtain ⟨f, snd⟩ := sc
  cases f with
  | err => rfl
  | timedOut => exact absurd rfl h1
  | resp st loc =>
    by_cases hred : st = 301 ∨ st = 302
    · rcases hred with rfl | rfl
      · cases snd with
        | err => rfl
        | timedOut => exact absurd rfl h1
        | resp st2 loc2 =>
          by_cases h404 : st2 = 404
          · subst h404; rfl
          · by_cases h200 : st2 = 200
            · subst h200; exact absurd rfl h1
            · simp [downloadFile, h404, h200]
      · cases snd with
        | err => rfl
        | timedOut => exact absurd rfl h1
        | resp st2 loc2 =>
          by_cases h404 : st2 = 404
          · subst h404; rfl
          · by_cases h200 : st2 = 200
            · subst h200; exact absurd rfl h1
            · simp [downloadFile, h404, h200]
    · by_cases h404 : st = 404
      · subst h404; rfl
      · by_cases h200 : st = 200
        · subst h200
          simp only [downloadFile] at h2 ⊢
          rw [if_neg hred] at h2
          exact absurd rfl h2
        · simp only [downloadFile]
          rw [if_neg hred, if_neg h404, if_pos h200]
  
/-- Witness for C2: a plain 404 rejection leaves no file. -/
theorem claim_C2_wit :
    (downloadFile (jarUrlOf cA) PROXY_CONFIG
      { first := NetResp.resp 404 [], second := NetResp.err }).dest
    = DestState.absent := by
  exact claim_C2 (jarUrlOf cA) PROXY_CONFIG
    { first := NetResp.resp 404 [], second := NetResp.err }
    (by decide) (by decide)

/-- C5 (code bug evidence): the request options carry the configured
10-second timeout, but the source installs no `timeout` listener, so when
the socket idle timeout fires no handler runs: the promise stays pending
(no `FetchError`), the request is never destroyed, and the empty
destination file remains. -/
theorem claim_C5 :
    downloadFile (jarUrlOf cA) PROXY_CONFIG
      { first := NetResp.timedOut, second := NetResp.err }
      = { outcome := DlOutcome.pending, dest := DestState.emptyFile,
          events := [DlEv.createStream,
                     DlEv.request (jarUrlOf cA) (mkOptions PROXY_CONFIG)] } ∧
    (mkOptions PROXY_CONFIG).timeoutMs = 10000 ∧
    (downloadFile (jarUrlOf cA) PROXY_CONFIG
      { first := NetResp.timedOut, second := NetResp.err }).outcome
      ≠ DlOutcome.rejectedErr := by
  exact ⟨rfl, rfl, by decide⟩

/-- C8: When the first response is a 301 or 302, exactly one redirect hop
is followed: precisely two requests are issued — the original URL and the
`Location` target, both with the same header/proxy options.  The
destination file is unlinked after the first response and before the
follow-up request (the event trace shows the order), and a second 301/302
is not followed but rejected as a `FetchError` carrying that status with
the destination deleted. -/
theorem claim_C8 : ∀ (url : Str) (cfg : ProxyConfig) (st : Nat) (loc : Str)
    (st2 : Nat) (loc2 : Str) (sc2 : NetResp),
    (st = 301 ∨ st = 302) →
    (requestsOf (downloadFile url cfg ⟨NetResp.resp st loc, sc2⟩).events
      = [(url, mkOptions cfg), (loc, mkOptions cfg)]) ∧
    ((st2 = 301 ∨ st2 = 302) →
      downloadFile url cfg ⟨NetResp.resp st loc, NetResp.resp st2 loc2⟩
        = { outcome := DlOutcome.rejectedStatus st2, dest := DestState.absent,
            events := [DlEv.createStream, DlEv.request url (mkOptions cfg),
                       DlEv.unlinkDest, DlEv.request loc (mkOptions cfg),
                       DlEv.unlinkDest] }) := by
  intro url cfg st loc st2 loc2 sc2 hst
  rcases hst with rfl | rfl
  · constructor
    · cases sc2 with
      | err => rfl
      | timedOut => rfl
      | resp s2 l2 =>
        by_cases h404 : s2 = 404
        · subst h404; rfl
        · by_cases h200 : s2 = 200
          · subst h200; rfl
          · simp [downloadFile, requestsOf, h404, h200]
    · intro h2
      rcases h2 with rfl | rfl
      · rfl
      · rfl
  · constructor
    · cases sc2 with
      | err => rfl
      | timedOut => rfl
      | resp s2 l2 =>
        by_cases h404 : s2 = 404
        · subst h404; rfl
        · by_cases h200 : s2 = 200
          · subst h200; rfl
          · simp [downloadFile, requestsOf, h404, h200]
    · intro h2
      rcases h2 with rfl | rfl
      · rfl
      · rfl

/-- Witness for C8: a 301 followed by a second 302 makes exactly two
requests and rejects with status 302, destination deleted. -/
theorem claim_C8_wit :
    requestsOf (downloadFile (jarUrlOf cA) PROXY_CONFIG
        ⟨NetResp.resp 301 (pomUrlOf cA), NetResp.resp 302 (jarUrlOf cB)⟩).events
      = [(jarUrlOf cA, mkOptions PROXY_CONFIG),
         (pomUrlOf cA, mkOptions PROXY_CONFIG)] ∧
    downloadFile (jarUrlOf cA) PROXY_CONFIG
        ⟨NetResp.resp 301 (pomUrlOf cA), NetResp.resp 302 (jarUrlOf cB)⟩
      = { outcome := DlOutcome.rejectedStatus 302, dest := DestState.absent,
          events := [DlEv.createStream,
                     DlEv.request (jarUrlOf cA) (mkOptions PROXY_CONFIG),
                     DlEv.unlinkDest,
                     DlEv.request (pomUrlOf cA) (mkOptions PROXY_CONFIG),
                     DlEv.unlinkDest] } := by
  have h := claim_C8 (jarUrlOf cA) PROXY_CONFIG 301 (pomUrlOf cA) 302 (jarUrlOf cB)
    (NetResp.resp 302 (jarUrlOf cB)) (Or.inl rfl)
  exact ⟨h.1, h.2 (Or.inr rfl)⟩

/-! ## Claims about version-expression resolution -/

theorem refName_wrap (name : Str) :
    refName ('$' :: '{' :: (name ++ ['}'])) = some name := by
  simp [refName, List.getLast?_concat, List.dropLast_concat]

def xmlDepMissingProp : XmlDep :=
  { groupId := some [JsVal.vstr (strOf ("g"))],
    artifactId := some [JsVal.vstr (strOf ("a"))],
    version := some ['$' :: '{' :: (strOf ("missing") ++ ['}'])] }

/-- C6: Property-reference resolution first tries a direct lookup of the
full name (returning the keyed array's first element); on a miss it walks
the dot-separated segments into the nested table, and a missing segment
yields null with no exception and no default.  Concretely,
`${foo.bar}` against `{"foo.bar": ["1.2.3"]}` gives `"1.2.3"`, an empty
table gives null, and a dependency whose version resolved to null is
dropped by `getDependencies`. -/
theorem claim_C6 :
    (∀ (props : JsObj) (name : Str) (arr : List JsVal),
      lookupProp props name = some arr →
      resolveVersion ('$' :: '{' :: (name ++ ['}'])) (some props) = arr.head?) ∧
    (∀ (props : JsObj) (name : Str),
      lookupProp props name = none →
      resolveVersion ('$' :: '{' :: (name ++ ['}'])) (some props)
        = resolveNested (JsVal.vobj props) (splitOnChar '.' name)) ∧
    (∀ (cur : JsVal) (seg : Str) (segs : List Str),
      getIndex cur seg = none → resolveNested cur (seg :: segs) = none) ∧
    (resolveVersion ('$' :: '{' :: (strOf ("foo.bar") ++ ['}']))
      (some [(strOf ("foo.bar"), [JsVal.vstr (strOf ("1.2.3"))])])
      = some (JsVal.vstr (strOf ("1.2.3")))) ∧
    (resolveVersion ('$' :: '{' :: (strOf ("foo.bar") ++ ['}'])) (some []) = none) ∧
    (getDependencies (mkPom [resolveDep (some []) xmlDepMissingProp]) = []) := by
  refine ⟨?_, ?_, ?_, rfl, rfl, rfl⟩
  · intro props name arr h
    simp [resolveVersion, refName_wrap, h]
  · intro props name h
    simp [resolveVersion, refName_wrap, h]
  · intro cur seg segs h
    simp [resolveNested, h]

/-- Witness for C6: direct lookup applied at a concrete table. -/
theorem claim_C6_wit :
    resolveVersion ('$' :: '{' :: (strOf ("x.y") ++ ['}']))
      (some [(strOf ("x.y"), [JsVal.vstr (strOf ("7"))])])
    = some (JsVal.vstr (strOf ("7"))) := by
  exact claim_C6.1 [(strOf ("x.y"), [JsVal.vstr (strOf ("7"))])] (strOf ("x.y"))
    [JsVal.vstr (strOf ("7"))] rfl

theorem jsTrim_eq_self (s : Str)
    (h1 : List.dropWhile isJsSpace s = s)
    (h2 : List.dropWhile isJsSpace s.reverse = s.reverse) : jsTrim s = s := by
  unfold jsTrim
  rw [h1, h2, List.reverse_reverse]

theorem jsTrim_bracket (y : Str) :
    jsTrim ('[' :: (y ++ [')'])) = '[' :: (y ++ [')']) := by
  have hbr : isJsSpace '[' = false := by decide
  have hpr : isJsSpace ')' = false := by decide
  apply jsTrim_eq_self
  · simp [List.dropWhile_cons, hbr]
  · have hrev : ('[' :: (y ++ [')'])).reverse = ')' :: (y.reverse ++ ['[']) := by
      simp
    rw [hrev]
    simp [List.dropWhile_cons, hpr]

theorem parseVersionRange_min (m : Str) :
    (parseVersionRange ('[' :: (m ++ [',', ')']))).min = some m := by
  have hform : ('[' :: (m ++ [',', ')'])) = '[' :: ((m ++ [',']) ++ [')']) := by
    simp
  rw [hform]
  simp only [parseVersionRange, jsTrim_bracket]
  rw [List.getLast?_concat]
  simp [List.dropLast_concat]

/-- C7: A version expression of the exact shape `[min,)` (with a
non-empty minimum) resolves to the literal string `min`; any other
expression containing range delimiters whose trimmed form is not
`[`...`)`-shaped (and is not a property reference) resolves to the
original string itself; `[1.0,)` resolves to `"1.0"`. -/
theorem claim_C7 :
    (∀ (m : Str) (props : Option JsObj), m ≠ [] →
      resolveVersion ('[' :: (m ++ [',', ')'])) props = some (JsVal.vstr m)) ∧
    (∀ (v : Str) (props : Option JsObj), v ≠ [] →
      refName v = none → (parseVersionRange v).min = none →
      ((('[' ∈ v) ∧ (']' ∈ v)) ∨ ('(' ∈ v) ∨ (')' ∈ v)) →
      resolveVersion v props = some (JsVal.vstr v)) ∧
    (resolveVersion (strOf ("[1.0,)")) none = some (JsVal.vstr (strOf ("1.0")))) := by
  refine ⟨?_, ?_, rfl⟩
  · intro m props hm
    obtain ⟨c, m2, rfl⟩ := List.exists_cons_of_ne_nil hm
    have hmin := parseVersionRange_min (c :: m2)
    have hcond : ((('[' ∈ ('[' :: ((c :: m2) ++ [',', ')']))) ∧
        (']' ∈ ('[' :: ((c :: m2) ++ [',', ')'])))) ∨
        ('(' ∈ ('[' :: ((c :: m2) ++ [',', ')']))) ∨
        (')' ∈ ('[' :: ((c :: m2) ++ [',', ')'])))) := by
      right; right; simp
    have hrange : rangeOrLiteral ('[' :: ((c :: m2) ++ [',', ')']))
        = JsVal.vstr (c :: m2) := by
      simp only [rangeOrLiteral]
      rw [if_pos hcond, hmin]
      rfl
    cases props with
    | none =>
      show some (rangeOrLiteral ('[' :: ((c :: m2) ++ [',', ')']))) = _
      rw [hrange]
    | some ps =>
      show some (rangeOrLiteral ('[' :: ((c :: m2) ++ [',', ')']))) = _
      rw [hrange]
  · intro v props hne href hmin hcond
    obtain ⟨c, v2, rfl⟩ := List.exists_cons_of_ne_nil hne
    have hrange : rangeOrLiteral (c :: v2) = JsVal.vstr (c :: v2) := by
      simp only [rangeOrLiteral]
      rw [if_pos hcond, hmin]
    cases props with
    | none =>
      show (match refName (c :: v2), (none : Option JsObj) with
        | some propertyName, some props =>
          match lookupProp props propertyName with
          | some arr => arr.head?
          | none => resolveNested (JsVal.vobj props) (splitOnChar '.' propertyName)
        | some _, none => some (rangeOrLiteral (c :: v2))
        | none, _ => some (rangeOrLiteral (c :: v2))) = _
      rw [href, hrange]
    | some ps =>
      show (match refName (c :: v2), (some ps : Option JsObj) with
        | some propertyName, some props =>
          match lookupProp props propertyName with
          | some arr => arr.head?
          | none => resolveNested (JsVal.vobj props) (splitOnChar '.' propertyName)
        | some _, none => some (rangeOrLiteral (c :: v2))
        | none, _ => some (rangeOrLiteral (c :: v2))) = _
      rw [href, hrange]

/-- Witness for C7: the `[min,)` rule applied at `[2.5,)`. -/
theorem claim_C7_wit :
    resolveVersion ('[' :: (strOf ("2.5") ++ [',', ')'])) none
      = some (JsVal.vstr (strOf ("2.5"))) := by
  exact claim_C7.1 (strOf ("2.5")) none (by decide)

/-! ## Claim C9: invalid dependency declarations are dropped -/

/-- C9: `getDependencies` drops every dependency declaration missing its
group, artifact, or version (including a version that resolved to null),
without raising; every returned declaration stems from an input element
with all three fields present that passed the filter.  Concretely, a
declaration whose `${missing}` version resolved to null contributes
nothing. -/
theorem claim_C9 :
    (∀ (deps1 deps2 : List RawDep) (bad : RawDep), validRaw bad = false →
      getDependencies (mkPom (deps1 ++ bad :: deps2))
        = getDependencies (mkPom (deps1 ++ deps2))) ∧
    (∀ (deps : List RawDep) (d : DepOut), d ∈ getDependencies (mkPom deps) →
      ∃ raw, raw ∈ deps ∧ validRaw raw = true ∧ d = mkDepOut raw ∧
        raw.groupId.isSome = true ∧ raw.artifactId.isSome = true ∧
        raw.version.isSome = true) ∧
    (getDependencies (mkPom [resolveDep (some []) xmlDepMissingProp]) = []) := by
  refine ⟨?_, ?_, rfl⟩
  · intro deps1 deps2 bad hbad
    rw [getDependencies_eq, getDependencies_eq]
    simp [List.filter_append, List.filter_cons, hbad]
  · intro deps d hd
    rw [getDependencies_eq] at hd
    obtain ⟨raw, hraw, rfl⟩ := List.mem_map.mp hd
    obtain ⟨hmem, hvalid⟩ := List.mem_filter.mp hraw
    have hv := hvalid
    simp only [validRaw, Bool.and_eq_true] at hv
    obtain ⟨⟨h1, h2⟩, h3⟩ := hv
    refine ⟨raw, hmem, hvalid, rfl, h1, h2, ?_⟩
    cases hver : raw.version with
    | none => rw [hver] at h3; simp at h3
    | some arr => rfl

/-- Witness for C9: the drop equation applied to the concrete
null-version dependency. -/
theorem claim_C9_wit :
    getDependencies (mkPom [resolveDep (some []) xmlDepMissingProp])
      = getDependencies (mkPom []) := by
  exact claim_C9.1 [] [] (resolveDep (some []) xmlDepMissingProp) rfl

/-! ## Claim C10: undefined minimum version in file names and URLs -/

/-- C10: When a version string contains `[` or `(` but is not of the
`[min,)` shape (the parsed range has no minimum), `downloadDependency`
sets the effective version to JS `undefined`, so the jar name, pom name,
artifact path, and remote URL all embed the literal text `undefined` in
place of the version. -/
theorem claim_C10 : ∀ (c : Coord),
    (('[' ∈ c.version) ∨ ('(' ∈ c.version)) →
    (parseVersionRange c.version).min = none →
    actualVersionOf c.version = none ∧
    jarNameOf c = c.artifactId ++ strOf ("-undefined.jar") ∧
    pomNameOf c = c.artifactId ++ strOf ("-undefined.pom") ∧
    artifactPathOf c
      = (replaceDots c.groupId ++ '/' :: c.artifactId) ++ strOf ("/undefined") ∧
    (∃ pre suf, jarUrlOf c = pre ++ strOf ("undefined") ++ suf ∧
      suf = strOf (".jar")) := by
  intro c hcond hmin
  have hav : actualVersionOf c.version = none := by
    unfold actualVersionOf
    rw [if_pos hcond, hmin]
  have hjar : jarNameOf c = c.artifactId ++ strOf ("-undefined.jar") := by
    simp only [jarNameOf, hav]
    rw [List.append_assoc]
    rfl
  refine ⟨hav, hjar, ?_, ?_, ?_⟩
  · simp only [pomNameOf, hav]
    rw [List.append_assoc]
    rfl
  · simp only [artifactPathOf, hav]
    rfl
  · refine ⟨MAVEN_CENTRAL_URL ++ '/' :: artifactPathOf c ++ '/' :: c.artifactId
      ++ strOf ("-"), strOf (".jar"), ?_, rfl⟩
    simp only [jarUrlOf, hjar]
    simp [List.append_assoc]
    rfl

/-- A coordinate with an exact-singleton range version. -/
def cBad : Coord :=
  { groupId := strOf ("g"), artifactId := strOf ("art"),
    version := strOf ("[1.0]") }

/-- Witness for C10: the exact-singleton range `[1.0]` produces
`art-undefined.jar`. -/
theorem claim_C10_wit :
    jarNameOf cBad = strOf ("art") ++ strOf ("-undefined.jar") := by
  exact (claim_C10 cBad (by decide) (by decide)).2.1
